import Mathlib

set_option maxRecDepth 8000

/-!
Shallow embedding of the PicoMemPerf repository (src/PicoMemPerf.c) and
verification of its natural-language specification.

The embedding translates the two core pieces of the program:

* the PSRAM bring-up routine `setup_psram` (timing derivation, device
  probing and identification, reset/mode-enable commands, map-mode
  configuration), modelled as pure arithmetic functions plus an explicit
  trace of hardware/interrupt events; and
* the benchmark harness `memory_test` / `test_mem`, modelled as a state
  machine over a buffer of 32-bit words (represented as a `List Nat`
  whose stored values are kept below 2^32 by explicit `% 2^32`).

Machine integers are embedded as `Nat` (or `Int` where the C code uses a
signed subtraction), with wrap-around written explicitly where the C
types wrap (uint32_t arithmetic in the benchmark loops).
-/

namespace PicoMemPerf

/-! ### Timing derivation (setup_psram, PicoMemPerf.c lines 99-114) -/

/-- Source constant PSRAM_ID (line 75): expected manufacturer id byte. -/
def PSRAM_ID : Nat := 0x5D

/-- Lines 101-104:
    clockDivider = (clock_hz + max_psram_freq - 1) / max_psram_freq;
    if (clockDivider == 1 && clock_hz > 100000000) clockDivider = 2. -/
def clockDivider (clock_hz max_psram_freq : Nat) : Nat :=
  let d := (clock_hz + max_psram_freq - 1) / max_psram_freq
  if d = 1 ∧ 100000000 < clock_hz then 2 else d

/-- Lines 105-108: rxdelay = clockDivider, plus one if the divided clock
    still exceeds 100 MHz. -/
def rxdelay (clock_hz max_psram_freq : Nat) : Nat :=
  let d := clockDivider clock_hz max_psram_freq
  if 100000000 < clock_hz / d then d + 1 else d

/-- Line 112: clock_period_fs = 1000000000000000ll / clock_hz. -/
def clock_period_fs (clock_hz : Nat) : Nat := 1000000000000000 / clock_hz

/-- Line 113: maxSelect = (125 * 1000000) / clock_period_fs. -/
def maxSelect (clock_hz : Nat) : Nat := (125 * 1000000) / clock_period_fs clock_hz

/-- Line 114:
    minDeselect = (18*1000000 + (clock_period_fs - 1)) / clock_period_fs
                  - (clockDivider + 1) / 2.
    The C computation is on nonnegative ints; the final subtraction is a
    signed subtraction, embedded as `Int` subtraction of the two
    nonnegative subterms. -/
def minDeselect (clock_hz max_psram_freq : Nat) : Int :=
  (((18 * 1000000 + (clock_period_fs clock_hz - 1)) / clock_period_fs clock_hz : Nat) : Int)
    - (((clockDivider clock_hz max_psram_freq + 1) / 2 : Nat) : Int)

/-- Mathematical ceiling of a/b (for b > 0), written from the spec's
    formula "ceil(systemClockHz / maxDeviceFreqHz)"; used to state the
    numeric claims against the source's add-before-divide idiom. -/
def cdiv_spec (a b : Nat) : Nat := a / b + (if a % b = 0 then 0 else 1)

theorem add_pred_div_eq_cdiv (a b : Nat) (hb : 0 < b) :
    (a + b - 1) / b = cdiv_spec a b := by
  have hdm : b * (a / b) + a % b = a := Nat.div_add_mod a b
  have hlt : a % b < b := Nat.mod_lt _ hb
  unfold cdiv_spec
  by_cases hr : a % b = 0
  · have h1 : a + b - 1 = (b - 1) + b * (a / b) := by omega
    rw [h1, Nat.add_mul_div_left _ _ hb, Nat.div_eq_of_lt (by omega), if_pos hr]
    omega
  · have hmul : b * (a / b + 1) = b * (a / b) + b := by ring
    have h1 : a + b - 1 = (a % b - 1) + b * (a / b + 1) := by omega
    rw [h1, Nat.add_mul_div_left _ _ hb, Nat.div_eq_of_lt (by omega), if_neg hr]
    omega

theorem cdiv_spec_pos (a b : Nat) (ha : 0 < a) (hb : 0 < b) : 0 < cdiv_spec a b := by
  unfold cdiv_spec
  by_cases h : a % b = 0
  · rw [if_pos h]
    have hd : b ∣ a := Nat.dvd_of_mod_eq_zero h
    have hle := Nat.le_of_dvd ha hd
    have := Nat.div_pos hle hb
    omega
  · rw [if_neg h]
    exact Nat.succ_pos _

theorem le_cdiv_mul (a b : Nat) (hb : 0 < b) : a ≤ cdiv_spec a b * b := by
  have hdm : b * (a / b) + a % b = a := Nat.div_add_mod a b
  have hlt : a % b < b := Nat.mod_lt _ hb
  unfold cdiv_spec
  by_cases hr : a % b = 0
  · rw [if_pos hr]
    have hmul : (a / b + 0) * b = b * (a / b) := by ring
    omega
  · rw [if_neg hr]
    have hmul : (a / b + 1) * b = b * (a / b) + b := by ring
    omega

theorem cdiv_quot_le (a b : Nat) (ha : 0 < a) (hb : 0 < b) :
    a / cdiv_spec a b ≤ b := by
  have hd : 0 < cdiv_spec a b := cdiv_spec_pos a b ha hb
  calc a / cdiv_spec a b
      ≤ (cdiv_spec a b * b) / cdiv_spec a b :=
        Nat.div_le_div_right (le_cdiv_mul a b hb)
    _ = b := Nat.mul_div_cancel_left b hd

/-- Claim C3: for positive system clock and device frequency, the derived
    clockDivider equals ceil(systemClockHz / maxDeviceFreqHz) except that
    a ceiling of 1 with systemClockHz > 100 MHz is forced to 2; hence
    clockDivider ≥ 1, and outside the forced branch
    systemClockHz / clockDivider ≤ maxDeviceFreqHz; and the end-to-end
    scenario 150 MHz / 133 MHz yields divider 2 without the override. -/
theorem clockDivider_props (clock_hz max_freq : Nat)
    (h1 : 0 < clock_hz) (h2 : 0 < max_freq) :
    clockDivider clock_hz max_freq =
      (if cdiv_spec clock_hz max_freq = 1 ∧ 100000000 < clock_hz then 2
       else cdiv_spec clock_hz max_freq)
  ∧ 1 ≤ clockDivider clock_hz max_freq
  ∧ (¬(cdiv_spec clock_hz max_freq = 1 ∧ 100000000 < clock_hz) →
      clock_hz / clockDivider clock_hz max_freq ≤ max_freq)
  ∧ cdiv_spec 150000000 133000000 = 2
  ∧ ¬(cdiv_spec 150000000 133000000 = 1 ∧ 100000000 < 150000000)
  ∧ clockDivider 150000000 133000000 = 2 := by
  have hc : (clock_hz + max_freq - 1) / max_freq = cdiv_spec clock_hz max_freq :=
    add_pred_div_eq_cdiv clock_hz max_freq h2
  have hpos : 0 < cdiv_spec clock_hz max_freq := cdiv_spec_pos clock_hz max_freq h1 h2
  have heq : clockDivider clock_hz max_freq =
      if cdiv_spec clock_hz max_freq = 1 ∧ 100000000 < clock_hz then 2
      else cdiv_spec clock_hz max_freq := by
    simp only [clockDivider]
    rw [hc]
  refine ⟨heq, ?_, ?_, by decide, by decide, by decide⟩
  · rw [heq]
    split
    · omega
    · omega
  · intro hnf
    rw [heq, if_neg hnf]
    exact cdiv_quot_le clock_hz max_freq h1 h2

/-- Witness for C3 at the end-to-end scenario (150 MHz system clock,
    133 MHz device limit). -/
theorem clockDivider_props_witness :
    clockDivider 150000000 133000000 = 2 :=
  (clockDivider_props 150000000 133000000 (by decide) (by decide)).2.2.2.2.2

/-- Claim C4: the derived minDeselect equals
    ceil(18,000,000 fs / clockPeriod) - floor((clockDivider + 1) / 2),
    the ceiling being realized by exact integer arithmetic; stated for
    every positive system clock representable as a C int. -/
theorem minDeselect_spec (clock_hz max_freq : Nat)
    (h1 : 0 < clock_hz) (h2 : clock_hz < 2 ^ 31) :
    minDeselect clock_hz max_freq =
      ((cdiv_spec 18000000 (clock_period_fs clock_hz) : Nat) : Int)
        - (((clockDivider clock_hz max_freq + 1) / 2 : Nat) : Int) := by
  have hp : 0 < clock_period_fs clock_hz := by
    unfold clock_period_fs
    exact Nat.div_pos (by omega) h1
  unfold minDeselect
  have h18 : 18 * 1000000 + (clock_period_fs clock_hz - 1)
      = 18000000 + clock_period_fs clock_hz - 1 := by omega
  rw [h18, add_pred_div_eq_cdiv _ _ hp]

/-- Witness for C4 at the 150 MHz scenario. -/
theorem minDeselect_spec_witness :
    minDeselect 150000000 133000000 =
      ((cdiv_spec 18000000 (clock_period_fs 150000000) : Nat) : Int)
        - (((clockDivider 150000000 133000000 + 1) / 2 : Nat) : Int) :=
  minDeselect_spec 150000000 133000000 (by decide) (by decide)

/-! ### Size classification (setup_psram, lines 251-264) -/

/-- Lines 251-264: psram_size starts at 1 MiB; size_id = eid >> 5;
    eid == 0x26 or size_id == 2 multiplies by 8, size_id == 0 by 1,
    size_id == 1 by 4; any other value leaves the 1 MiB default. -/
def psramSizeOf (eid : Nat) : Nat :=
  let psram_size := 1024 * 1024
  let size_id := eid >>> 5
  if eid = 0x26 ∨ size_id = 2 then psram_size * 8
  else if size_id = 0 then psram_size * 1
  else if size_id = 1 then psram_size * 4
  else psram_size

/-- Modelled from the spec's words for claim C5: capacity = 1 MiB times a
    multiplier derived from the top 3 bits of extendedId (for a byte,
    its value divided by 32): value 2 or exact byte 0x26 gives 8,
    value 0 gives 1, value 1 gives 4, anything else falls through to the
    1x default. -/
def capacity_spec (eid : Nat) : Nat :=
  1048576 *
    (if eid = 0x26 ∨ eid / 32 = 2 then 8
     else if eid / 32 = 0 then 1
     else if eid / 32 = 1 then 4
     else 1)

/-- Claim C5: the computed device capacity agrees with the spec's
    top-3-bits classification for every extendedId, and in particular
    0x00 gives 1 MiB, 0x20 gives 4 MiB, 0x40 and 0x26 give 8 MiB. -/
theorem psramSizeOf_spec (eid : Nat) :
    psramSizeOf eid = capacity_spec eid
  ∧ psramSizeOf 0x00 = 1024 * 1024
  ∧ psramSizeOf 0x20 = 4 * (1024 * 1024)
  ∧ psramSizeOf 0x40 = 8 * (1024 * 1024)
  ∧ psramSizeOf 0x26 = 8 * (1024 * 1024) := by
  refine ⟨?_, by decide, by decide, by decide, by decide⟩
  simp only [psramSizeOf, capacity_spec, Nat.shiftRight_eq_div_pow]
  norm_num

/-! ### Event-trace model of setup_psram (lines 93-271)

The hardware side of setup_psram is modelled as the ordered trace of its
externally visible actions: accesses to the QMI bus-controller register
block, the XIP control register, interrupt save/disable and restore, GPIO
setup, and diagnostic output lines.  Busy/empty polling loops contribute a
single status-register read each (the model assumes the poll terminates);
the registers touched and their order follow the source line by line. -/

/-- A register of the bus controller (or the XIP write-enable register)
    touched by setup_psram. -/
inductive BusOp where
  | directCsr
  | directTx
  | directRx
  | m1Timing
  | m1Rfmt
  | m1Rcmd
  | m1Wfmt
  | m1Wcmd
  | xipCtrl
  deriving DecidableEq

/-- The diagnostic lines setup_psram can emit (lines 116, 177, 180, 269). -/
inductive PrintLine where
  | maxSelectLine
  | invalidId
  | validId
  | psramId
  deriving DecidableEq

/-- An externally visible action of setup_psram. -/
inductive Event where
  | gpioInit
  | irqSave
  | irqRestore
  | bus (op : BusOp)
  | print (line : PrintLine)
  deriving DecidableEq

/-- Lines 118-174: the probe/identify phase, inside the first critical
    section: enable direct mode, poll, exit quad mode (assert CS, send
    QUAD_END, poll, drain rx, deassert CS), then assert CS and run the
    7-byte identify exchange (tx, txempty poll, busy poll, rx each), and
    finally disable direct mode and restore interrupts. -/
def probe_events : List Event :=
  [Event.irqSave, Event.bus BusOp.directCsr, Event.bus BusOp.directCsr,
   Event.bus BusOp.directCsr, Event.bus BusOp.directTx, Event.bus BusOp.directCsr,
   Event.bus BusOp.directRx, Event.bus BusOp.directCsr,
   Event.bus BusOp.directCsr]
  ++ List.flatten (List.replicate 7
       [Event.bus BusOp.directTx, Event.bus BusOp.directCsr,
        Event.bus BusOp.directCsr, Event.bus BusOp.directRx])
  ++ [Event.bus BusOp.directCsr, Event.irqRestore]

/-- Lines 192-220: the four device commands (RSTEN, RST, QUAD_ENABLE,
    LINEAR_TOGGLE), each an assert-CS, tx, busy poll, deassert-CS, rx
    cycle (the nop settling loop touches nothing). -/
def init_cmd_events : List Event :=
  List.flatten (List.replicate 4
    [Event.bus BusOp.directCsr, Event.bus BusOp.directTx,
     Event.bus BusOp.directCsr, Event.bus BusOp.directCsr,
     Event.bus BusOp.directRx])

/-- setup_psram (lines 93-271) as a pure function of the two identity
    bytes the device returns (kgd = manufacturer id, eid = extended id):
    the returned capacity in bytes and the ordered event trace.  The
    timing derivation it performs is the pure arithmetic modelled above
    (clockDivider, rxdelay, maxSelect, minDeselect) and contributes no
    events.  On the identification-failure path (kgd differing from
    PSRAM_ID, line 175) the function prints the diagnostic and returns
    the still-zero size; otherwise it runs the reset/mode-enable
    commands, programs the map-mode registers m[1].timing/rfmt/rcmd/
    wfmt/wcmd, computes the capacity from eid, sets the XIP write-enable
    flag and returns.  In both cases the function returns normally, so
    the caller continues. -/
def setup_psram (kgd eid : Nat) : Nat × List Event :=
  let pre := [Event.gpioInit, Event.print PrintLine.maxSelectLine] ++ probe_events
  if kgd ≠ PSRAM_ID then
    (0, pre ++ [Event.print PrintLine.invalidId])
  else
    (psramSizeOf eid,
     pre
       ++ [Event.print PrintLine.validId, Event.irqSave,
           Event.bus BusOp.directCsr, Event.bus BusOp.directCsr]
       ++ init_cmd_events
       ++ [Event.bus BusOp.directCsr,
           Event.bus BusOp.m1Timing, Event.bus BusOp.m1Rfmt,
           Event.bus BusOp.m1Rcmd, Event.bus BusOp.m1Wfmt,
           Event.bus BusOp.m1Wcmd,
           Event.bus BusOp.xipCtrl, Event.irqRestore,
           Event.print PrintLine.psramId])

/-- The map-mode configuration steps of claim C2: the per-device timing
    register, the read/write command-format and command registers, and
    the XIP write-enable flag. -/
def mapModeOps : List BusOp :=
  [BusOp.m1Timing, BusOp.m1Rfmt, BusOp.m1Rcmd, BusOp.m1Wfmt, BusOp.m1Wcmd,
   BusOp.xipCtrl]

/-- Interrupt discipline checker: walks an event trace carrying the
    current interrupts-enabled flag and the stack of states stashed by
    save_and_disable_interrupts.  It returns true iff every bus-controller
    access happens with interrupts disabled, every restore matches a save
    (restoring the stashed state), and the trace ends with interrupts
    back in their initial state and no unmatched save. -/
def irqCheck : List Event → Bool → List Bool → Bool
  | [], enabled, stash => enabled && stash.isEmpty
  | Event.irqSave :: rest, enabled, stash => irqCheck rest false (enabled :: stash)
  | Event.irqRestore :: _, _, [] => false
  | Event.irqRestore :: rest, _, s :: stash => irqCheck rest s stash
  | Event.bus _ :: rest, enabled, stash => !enabled && irqCheck rest enabled stash
  | Event.gpioInit :: rest, enabled, stash => irqCheck rest enabled stash
  | Event.print _ :: rest, enabled, stash => irqCheck rest enabled stash

/-- Claim C2: for any manufacturer-id byte other than PSRAM_ID (0x5D),
    setup_psram prints the invalid-id diagnostic, returns capacity 0,
    and performs none of the map-mode configuration steps (timing
    register, read/write command-format registers, write-enable flag);
    for the expected byte the capacity is computed from the extended id
    (and the map-mode steps are performed). -/
theorem setup_psram_id_gate (kgd eid : Nat) :
    (kgd ≠ PSRAM_ID →
        (setup_psram kgd eid).1 = 0
      ∧ Event.print PrintLine.invalidId ∈ (setup_psram kgd eid).2
      ∧ ∀ op ∈ mapModeOps, Event.bus op ∉ (setup_psram kgd eid).2)
  ∧ (kgd = PSRAM_ID →
        (setup_psram kgd eid).1 = psramSizeOf eid
      ∧ ∀ op ∈ mapModeOps, Event.bus op ∈ (setup_psram kgd eid).2) := by
  by_cases h : kgd = PSRAM_ID
  · subst h
    refine ⟨fun hne => absurd rfl hne, fun _ => ⟨?_, ?_⟩⟩
    · simp [setup_psram]
    · simp only [setup_psram, if_neg (by simp : ¬(PSRAM_ID ≠ PSRAM_ID))]
      decide
  · refine ⟨fun _ => ⟨?_, ?_, ?_⟩, fun heq => absurd heq h⟩
    · simp [setup_psram, h]
    · simp only [setup_psram, if_pos h]
      decide
    · simp only [setup_psram, if_pos h]
      decide

/-- Witness for C2: a wrong id byte (0xAA) yields capacity 0, the
    diagnostic line, and no map-mode step; the expected byte 0x5D with
    extended id 0x40 yields the capacity computed from the extended id. -/
theorem setup_psram_id_gate_witness :
    ((setup_psram 0xAA 0x40).1 = 0
      ∧ Event.print PrintLine.invalidId ∈ (setup_psram 0xAA 0x40).2
      ∧ ∀ op ∈ mapModeOps, Event.bus op ∉ (setup_psram 0xAA 0x40).2)
  ∧ ((setup_psram 0x5D 0x40).1 = psramSizeOf 0x40
      ∧ ∀ op ∈ mapModeOps, Event.bus op ∈ (setup_psram 0x5D 0x40).2) :=
  ⟨(setup_psram_id_gate 0xAA 0x40).1 (by decide),
   (setup_psram_id_gate 0x5D 0x40).2 rfl⟩

/-- Claim C7: on every path of setup_psram (identification failure and
    success alike), every access to the bus controller or XIP control
    register happens with interrupts disabled inside a save/restore
    critical section, and interrupts are restored to their saved state
    before the function returns. -/
theorem setup_psram_irq_discipline (kgd eid : Nat) :
    irqCheck (setup_psram kgd eid).2 true [] = true := by
  by_cases h : kgd = PSRAM_ID
  · subst h
    simp only [setup_psram, if_neg (by simp : ¬(PSRAM_ID ≠ PSRAM_ID))]
    decide
  · simp only [setup_psram, if_pos h]
    decide

/-! ### Correctness pass test_mem (lines 419-454) -/

/-- The per-descriptor report test_mem prints (lines 442, 446, 451). -/
inductive MemTestReport where
  | passed
  | failed
  | skipped
  deriving DecidableEq

/-- Lines 426-438: write the sentinel 0xDEADBEEF to every word and read
    it straight back, failing at the first mismatch.  The behaviour of
    the region is abstracted as readBack, giving the value a read of
    word x returns immediately after the sentinel was written to it. -/
def test_mem_check (readBack : Nat → Nat) (buffer_size : Nat) : Bool :=
  (List.range buffer_size).all fun x => readBack x == 0xDEADBEEF

/-- Lines 421-453, one descriptor: the branch taken by test_mem for a
    descriptor whose buffer pointer has address bufferAddr.  The source
    guard (line 424) is
      buffer < (uint32_t*)0x10000000 || buffer >= (uint32_t*)0x10000000,
    and its else-branch prints the skipped report. -/
def test_mem_report (bufferAddr : Nat) (readBack : Nat → Nat)
    (buffer_size : Nat) : MemTestReport :=
  if bufferAddr < 0x10000000 ∨ 0x10000000 ≤ bufferAddr then
    if test_mem_check readBack buffer_size then MemTestReport.passed
    else MemTestReport.failed
  else MemTestReport.skipped

/-- Claim C1 (refuted — code bug): the skip guard of test_mem is a
    tautology, so every descriptor, including the read-only s_testROM
    descriptor the guard was meant to exclude (see the source comment
    "Skip tests in Flash memory space"), takes the pass/fail branch;
    the skipped report is never produced for any base address, any
    region behaviour and any size. -/
theorem test_mem_never_skips (bufferAddr : Nat) (readBack : Nat → Nat)
    (buffer_size : Nat) :
    test_mem_report bufferAddr readBack buffer_size = MemTestReport.passed
  ∨ test_mem_report bufferAddr readBack buffer_size = MemTestReport.failed := by
  unfold test_mem_report
  rw [if_pos (by omega : bufferAddr < 0x10000000 ∨ 0x10000000 ≤ bufferAddr)]
  cases h : test_mem_check readBack buffer_size
  · right
    simp [h]
  · left
    simp [h]

/-! ### Benchmark harness memory_test (lines 339-407)

The buffer is a `List Nat` of 32-bit words; `value` and `seed_value` are
uint32_t locals, so their updates are taken modulo 2^32.  Each call of
`mt_step` is one inner-loop iteration of the source and also reports the
buffer index it accessed; `mt_inner` is the inner for-loop over
i = 0 .. buffer_size-1, `mt_outer` the outer loop over
loop_count = 100 * loop_scale passes.  The second component of each
result is the ordered list of accessed indices (a ghost observation; the
state evolution alone mirrors the C loops). -/

/-- 2^32, the modulus of the uint32_t arithmetic in memory_test. -/
def UINT32_MOD : Nat := 2 ^ 32

/-- Line 357/369: seed_value = seed_value * 1103515245U + 12345U
    (uint32_t arithmetic). -/
def lcg_next (seed : Nat) : Nat := (seed * 1103515245 + 12345) % UINT32_MOD

/-- The mutable locals of memory_test: the buffer under test and the
    uint32_t locals value and seed_value. -/
structure TestState where
  buffer : List Nat
  value : Nat
  seed : Nat
  deriving DecidableEq

/-- One inner-loop iteration of memory_test (lines 345-400), for loop
    index i.  Random modes advance the seed and access index
    seed & (buffer_size - 1); read modes accumulate into value, write
    modes store value and post-increment it.  Also returns the accessed
    index. -/
def mt_step (buffer_size : Nat) (read rnd : Bool) (i : Nat)
    (st : TestState) : TestState × Nat :=
  if rnd then
    let seed' := lcg_next st.seed
    let idx := seed' &&& (buffer_size - 1)
    if read then
      ({ st with value := (st.value + st.buffer.getD idx 0) % UINT32_MOD,
                 seed := seed' }, idx)
    else
      ({ st with buffer := st.buffer.set idx st.value,
                 value := (st.value + 1) % UINT32_MOD,
                 seed := seed' }, idx)
  else
    if read then
      ({ st with value := (st.value + st.buffer.getD i 0) % UINT32_MOD }, i)
    else
      ({ st with buffer := st.buffer.set i st.value,
                 value := (st.value + 1) % UINT32_MOD }, i)

/-- The inner for-loop of memory_test over the given loop indices. -/
def mt_inner (buffer_size : Nat) (read rnd : Bool) :
    List Nat → TestState → TestState × List Nat
  | [], st => (st, [])
  | i :: is, st =>
    let r := mt_step buffer_size read rnd i st
    let rest := mt_inner buffer_size read rnd is r.1
    (rest.1, r.2 :: rest.2)

/-- The outer loop of memory_test: the given number of passes, each an
    inner loop over i = 0 .. buffer_size-1. -/
def mt_outer (buffer_size : Nat) (read rnd : Bool) :
    Nat → TestState → TestState × List Nat
  | 0, st => (st, [])
  | n + 1, st =>
    let p := mt_inner buffer_size read rnd (List.range buffer_size) st
    let rest := mt_outer buffer_size read rnd n p.1
    (rest.1, p.2 ++ rest.2)

/-- memory_test (lines 339-407): loop_count = 100 * loop_scale passes
    starting from value = 0 and seed_value = 0xDEADBEEF, in the mode
    selected by (read, rnd).  Returns the final state together with the
    ordered list of accessed buffer indices. -/
def memory_test (buffer : List Nat) (buffer_size loop_scale : Nat)
    (read rnd : Bool) : TestState × List Nat :=
  mt_outer buffer_size read rnd (100 * loop_scale)
    { buffer := buffer, value := 0, seed := 0xDEADBEEF }

/-- The LCG index sequence of the spec and claim C6: starting from the
    given seed, iterate seed := seed * 1103515245 + 12345 (mod 2^32) and
    take index := seed & (sizeWords - 1), for the given number of steps.
    Arguments: size, step count, starting seed. -/
def lcgIndexSeq (sizeWords : Nat) : Nat → Nat → List Nat
  | 0, _ => []
  | n + 1, seed =>
    (lcg_next seed &&& (sizeWords - 1)) :: lcgIndexSeq sizeWords n (lcg_next seed)

/-- The seed value after the given number of LCG steps. -/
def lcgIter : Nat → Nat → Nat
  | 0, seed => seed
  | n + 1, seed => lcgIter n (lcg_next seed)

theorem lcgIter_add (a : Nat) :
    ∀ (b seed : Nat), lcgIter b (lcgIter a seed) = lcgIter (a + b) seed := by
  induction a with
  | zero => intro b seed; rw [Nat.zero_add]; rfl
  | succ a ih =>
    intro b seed
    have h1 : a + 1 + b = (a + b) + 1 := by omega
    rw [h1]
    show lcgIter b (lcgIter a (lcg_next seed)) = lcgIter (a + b) (lcg_next seed)
    exact ih b (lcg_next seed)

theorem lcgIndexSeq_add (bs : Nat) :
    ∀ (a b seed : Nat),
      lcgIndexSeq bs (a + b) seed
        = lcgIndexSeq bs a seed ++ lcgIndexSeq bs b (lcgIter a seed) := by
  intro a
  induction a with
  | zero => intro b seed; rw [Nat.zero_add]; rfl
  | succ a ih =>
    intro b seed
    have h1 : a + 1 + b = (a + b) + 1 := by omega
    rw [h1]
    show (lcg_next seed &&& (bs - 1)) :: lcgIndexSeq bs (a + b) (lcg_next seed)
        = ((lcg_next seed &&& (bs - 1)) :: lcgIndexSeq bs a (lcg_next seed))
          ++ lcgIndexSeq bs b (lcgIter (a + 1) seed)
    rw [List.cons_append, ih b (lcg_next seed)]
    rfl

theorem mt_step_rnd_trace (bs : Nat) (read : Bool) (i : Nat) (st : TestState) :
    (mt_step bs read true i st).2 = lcg_next st.seed &&& (bs - 1)
  ∧ (mt_step bs read true i st).1.seed = lcg_next st.seed := by
  cases read <;> exact ⟨rfl, rfl⟩

theorem mt_inner_rnd_trace (bs : Nat) (read : Bool) :
    ∀ (is : List Nat) (st : TestState),
      (mt_inner bs read true is st).2 = lcgIndexSeq bs is.length st.seed
    ∧ (mt_inner bs read true is st).1.seed = lcgIter is.length st.seed := by
  intro is
  induction is with
  | nil => intro st; exact ⟨rfl, rfl⟩
  | cons i is ih =>
    intro st
    have hstep := mt_step_rnd_trace bs read i st
    constructor
    · show (mt_step bs read true i st).2
          :: (mt_inner bs read true is (mt_step bs read true i st).1).2
        = lcgIndexSeq bs (is.length + 1) st.seed
      rw [hstep.1, (ih (mt_step bs read true i st).1).1, hstep.2]
      rfl
    · show (mt_inner bs read true is (mt_step bs read true i st).1).1.seed
        = lcgIter (is.length + 1) st.seed
      rw [(ih (mt_step bs read true i st).1).2, hstep.2]
      rfl

theorem mt_outer_rnd_trace (bs : Nat) (read : Bool) :
    ∀ (n : Nat) (st : TestState),
      (mt_outer bs read true n st).2 = lcgIndexSeq bs (n * bs) st.seed
    ∧ (mt_outer bs read true n st).1.seed = lcgIter (n * bs) st.seed := by
  intro n
  induction n with
  | zero =>
    intro st
    rw [Nat.zero_mul]
    exact ⟨rfl, rfl⟩
  | succ n ih =>
    intro st
    have hp := mt_inner_rnd_trace bs read (List.range bs) st
    have hlen : (List.range bs).length = bs := List.length_range bs
    rw [hlen] at hp
    have hmul : (n + 1) * bs = bs + n * bs := by ring
    constructor
    · show (mt_inner bs read true (List.range bs) st).2
          ++ (mt_outer bs read true n (mt_inner bs read true (List.range bs) st).1).2
        = lcgIndexSeq bs ((n + 1) * bs) st.seed
      rw [hp.1, (ih (mt_inner bs read true (List.range bs) st).1).1, hp.2,
          hmul, lcgIndexSeq_add]
    · show (mt_outer bs read true n (mt_inner bs read true (List.range bs) st).1).1.seed
        = lcgIter ((n + 1) * bs) st.seed
      rw [(ih (mt_inner bs read true (List.range bs) st).1).2, hp.2, hmul]
      exact lcgIter_add bs (n * bs) st.seed

/-- Claim C6: for sizeWords a power of two, the random-pattern index
    sequence is deterministic: a run of the benchmark's random mode over
    any buffer of that size produces exactly the index sequence obtained
    by iterating seed := seed * 1103515245 + 12345 (mod 2^32),
    index := seed & (sizeWords - 1) from the fixed seed 0xDEADBEEF, so
    any two runs (over possibly different buffer contents, reading or
    writing) yield the identical ordered index sequence. -/
theorem memory_test_rnd_deterministic (e sizeWords : Nat)
    (b1 b2 : List Nat) (r1 r2 : Bool) (loop_scale : Nat)
    (hbs : sizeWords = 2 ^ e)
    (h1 : b1.length = sizeWords) (h2 : b2.length = sizeWords) :
    (memory_test b1 sizeWords loop_scale r1 true).2
      = lcgIndexSeq sizeWords (100 * loop_scale * sizeWords) 0xDEADBEEF
  ∧ (memory_test b1 sizeWords loop_scale r1 true).2
      = (memory_test b2 sizeWords loop_scale r2 true).2 := by
  have t1 := (mt_outer_rnd_trace sizeWords r1 (100 * loop_scale)
    { buffer := b1, value := 0, seed := 0xDEADBEEF }).1
  have t2 := (mt_outer_rnd_trace sizeWords r2 (100 * loop_scale)
    { buffer := b2, value := 0, seed := 0xDEADBEEF }).1
  refine ⟨t1, ?_⟩
  rw [memory_test, memory_test, t1, t2]

/-- Witness for C6 at sizeWords = 2 (= 2^1), loop_scale = 1, over two
    different buffers and both random modes. -/
theorem memory_test_rnd_deterministic_witness :
    (memory_test [3, 4] 2 1 true true).2
      = lcgIndexSeq 2 (100 * 1 * 2) 0xDEADBEEF
  ∧ (memory_test [3, 4] 2 1 true true).2
      = (memory_test [9, 9] 2 1 false true).2 :=
  memory_test_rnd_deterministic 1 2 [3, 4] [9, 9] true false 1 rfl rfl rfl

theorem mt_step_index_lt (bs : Nat) (read rnd : Bool) (i : Nat)
    (st : TestState) (hbs : 0 < bs) (hi : i < bs) :
    (mt_step bs read rnd i st).2 < bs := by
  cases rnd
  · cases read <;> exact hi
  · cases read <;>
      exact Nat.lt_of_le_of_lt Nat.and_le_right (by omega)

theorem mt_inner_index_lt (bs : Nat) (read rnd : Bool) (hbs : 0 < bs) :
    ∀ (is : List Nat) (st : TestState), (∀ i ∈ is, i < bs) →
      ∀ x ∈ (mt_inner bs read rnd is st).2, x < bs := by
  intro is
  induction is with
  | nil => intro st _ x hx; cases hx
  | cons i is ih =>
    intro st his x hx
    simp only [mt_inner] at hx
    rcases List.mem_cons.mp hx with hx | hx
    · rw [hx]
      exact mt_step_index_lt bs read rnd i st hbs (his i (by simp))
    · exact ih _ (fun j hj => his j (by simp [hj])) x hx

theorem mt_outer_index_lt (bs : Nat) (read rnd : Bool) (hbs : 0 < bs) :
    ∀ (n : Nat) (st : TestState),
      ∀ x ∈ (mt_outer bs read rnd n st).2, x < bs := by
  intro n
  induction n with
  | zero => intro st x hx; cases hx
  | succ n ih =>
    intro st x hx
    simp only [mt_outer] at hx
    rcases List.mem_append.mp hx with hx | hx
    · exact mt_inner_index_lt bs read rnd hbs (List.range bs) st
        (fun i hi => List.mem_range.mp hi) x hx
    · exact ih _ x hx

/-- Claim C8: for buffer_size a power of two (hence at least 1), every
    buffer index accessed by memory_test in any of its four modes —
    in the random modes the masked value seed & (buffer_size - 1), in
    the sequential modes the loop counter — is strictly less than
    buffer_size. -/
theorem memory_test_indices_in_bounds (e buffer_size : Nat)
    (buffer : List Nat) (loop_scale : Nat) (read rnd : Bool) (idx : Nat)
    (hbs : buffer_size = 2 ^ e)
    (hmem : idx ∈ (memory_test buffer buffer_size loop_scale read rnd).2) :
    idx < buffer_size := by
  have hpos : 0 < buffer_size := hbs ▸ Nat.pos_pow_of_pos e (by omega)
  exact mt_outer_index_lt buffer_size read rnd hpos (100 * loop_scale) _ idx hmem

/-- Witness for C8: index 0 occurs in the sequential-read trace over a
    2-word buffer and is within bounds. -/
theorem memory_test_indices_in_bounds_witness :
    0 ∈ (memory_test [1, 2] 2 1 true false).2 ∧ 0 < 2 :=
  ⟨by decide,
   memory_test_indices_in_bounds 1 2 [1, 2] 1 true false 0 rfl (by decide)⟩

theorem mt_step_read_buffer (bs : Nat) (rnd : Bool) (i : Nat) (st : TestState) :
    (mt_step bs true rnd i st).1.buffer = st.buffer := by
  cases rnd <;> rfl

theorem mt_inner_read_buffer (bs : Nat) (rnd : Bool) :
    ∀ (is : List Nat) (st : TestState),
      (mt_inner bs true rnd is st).1.buffer = st.buffer := by
  intro is
  induction is with
  | nil => intro st; rfl
  | cons i is ih =>
    intro st
    show (mt_inner bs true rnd is (mt_step bs true rnd i st).1).1.buffer = st.buffer
    rw [ih, mt_step_read_buffer]

theorem mt_outer_read_buffer (bs : Nat) (rnd : Bool) :
    ∀ (n : Nat) (st : TestState),
      (mt_outer bs true rnd n st).1.buffer = st.buffer := by
  intro n
  induction n with
  | zero => intro st; rfl
  | succ n ih =>
    intro st
    show (mt_outer bs true rnd n
      (mt_inner bs true rnd (List.range bs) st).1).1.buffer = st.buffer
    rw [ih, mt_inner_read_buffer]

/-- Claim C9: a read-mode call of memory_test (sequential or random)
    leaves every word of the buffer unchanged: the final buffer equals
    the initial one for every buffer, buffer_size and loop_scale. -/
theorem memory_test_read_preserves_buffer (buffer : List Nat)
    (buffer_size loop_scale : Nat) (rnd : Bool) :
    (memory_test buffer buffer_size loop_scale true rnd).1.buffer = buffer :=
  mt_outer_read_buffer buffer_size rnd (100 * loop_scale) _

theorem getD_set_spec (l : List Nat) :
    ∀ (i j a : Nat),
      (l.set i a).getD j 0 = if i = j ∧ j < l.length then a else l.getD j 0 := by
  induction l with
  | nil =>
    intro i j a
    rw [if_neg (by simp)]
    rfl
  | cons x xs ih =>
    intro i j a
    simp only [List.length_cons]
    cases i with
    | zero =>
      cases j with
      | zero =>
        rw [if_pos ⟨rfl, Nat.succ_pos xs.length⟩]
        rfl
      | succ j =>
        rw [if_neg (by omega)]
        rfl
    | succ i =>
      cases j with
      | zero =>
        rw [if_neg (by omega)]
        rfl
      | succ j =>
        have hstep : ((x :: xs).set (i + 1) a).getD (j + 1) 0
            = (xs.set i a).getD j 0 := rfl
        rw [hstep, ih i j a]
        by_cases hc : i = j ∧ j < xs.length
        · rw [if_pos hc, if_pos (by omega)]
        · rw [if_neg hc, if_neg (by omega)]
          rfl

/-- Effect of one sequential-write inner loop over the index window
    [k, k+m): each written cell j receives (value + (j - k)) mod 2^32,
    the value local advances by m (mod 2^32), the seed is untouched and
    the buffer length is preserved. -/
theorem seq_write_inner (bs : Nat) :
    ∀ (m k : Nat) (buf : List Nat) (v s : Nat), v < UINT32_MOD →
      ((mt_inner bs false false (List.range' k m) ⟨buf, v, s⟩).1.buffer.length
          = buf.length)
    ∧ ((mt_inner bs false false (List.range' k m) ⟨buf, v, s⟩).1.value
          = (v + m) % UINT32_MOD)
    ∧ ∀ j, (mt_inner bs false false (List.range' k m) ⟨buf, v, s⟩).1.buffer.getD j 0
        = if k ≤ j ∧ j < k + m ∧ j < buf.length
          then (v + (j - k)) % UINT32_MOD
          else buf.getD j 0 := by
  intro m
  induction m with
  | zero =>
    intro k buf v s hv
    refine ⟨rfl, ?_, ?_⟩
    · show v = (v + 0) % UINT32_MOD
      rw [Nat.add_zero, Nat.mod_eq_of_lt hv]
    · intro j
      rw [if_neg (by omega)]
      rfl
  | succ m ih =>
    intro k buf v s hv
    have hr : List.range' k (m + 1) = k :: List.range' (k + 1) m :=
      List.range'_succ k m 1
    rw [hr]
    have hv1 : (v + 1) % UINT32_MOD < UINT32_MOD := Nat.mod_lt _ (by decide)
    obtain ⟨ihlen, ihval, ihgetD⟩ :=
      ih (k + 1) (buf.set k v) ((v + 1) % UINT32_MOD) s hv1
    have hunf : (mt_inner bs false false (k :: List.range' (k + 1) m)
          (⟨buf, v, s⟩ : TestState)).1
        = (mt_inner bs false false (List.range' (k + 1) m)
          (⟨buf.set k v, (v + 1) % UINT32_MOD, s⟩ : TestState)).1 := rfl
    refine ⟨?_, ?_, ?_⟩
    · rw [hunf, ihlen, List.length_set]
    · rw [hunf, ihval, Nat.mod_add_mod]
      congr 1
      omega
    · intro j
      rw [hunf, ihgetD j, List.length_set, getD_set_spec]
      by_cases h1 : k + 1 ≤ j ∧ j < k + 1 + m ∧ j < buf.length
      · rw [if_pos h1, if_pos (by omega), Nat.mod_add_mod]
        congr 1
        omega
      · rw [if_neg h1]
        by_cases h2 : k = j ∧ j < buf.length
        · rw [if_pos h2, if_pos (by omega)]
          have hjk : j - k = 0 := by omega
          rw [hjk, Nat.add_zero, Nat.mod_eq_of_lt hv]
        · rw [if_neg h2, if_neg (by omega)]

/-- Effect of n sequential-write passes over a buffer of length bs: for
    n ≥ 1, cell j of the final buffer holds (value + (n-1)*bs + j) mod
    2^32; the value local finishes at (value + n*bs) mod 2^32. -/
theorem seq_write_outer (bs : Nat) :
    ∀ (n : Nat) (buf : List Nat) (v s : Nat),
      buf.length = bs → v < UINT32_MOD →
      ((mt_outer bs false false n ⟨buf, v, s⟩).1.buffer.length = bs)
    ∧ ((mt_outer bs false false n ⟨buf, v, s⟩).1.value
          = (v + n * bs) % UINT32_MOD)
    ∧ ∀ j < bs, (mt_outer bs false false n ⟨buf, v, s⟩).1.buffer.getD j 0
        = if n = 0 then buf.getD j 0
          else (v + (n - 1) * bs + j) % UINT32_MOD := by
  intro n
  induction n with
  | zero =>
    intro buf v s hlen hv
    refine ⟨hlen, ?_, ?_⟩
    · show v = (v + 0 * bs) % UINT32_MOD
      rw [Nat.zero_mul, Nat.add_zero, Nat.mod_eq_of_lt hv]
    · intro j hj
      rw [if_pos rfl]
      rfl
  | succ n ih =>
    intro buf v s hlen hv
    have hrange : List.range bs = List.range' 0 bs := List.range_eq_range' bs
    have hpass := seq_write_inner bs bs 0 buf v s hv
    rw [← hrange] at hpass
    obtain ⟨hl1, hv1, hg1⟩ := hpass
    have heta : (mt_inner bs false false (List.range bs)
          (⟨buf, v, s⟩ : TestState)).1
        = (⟨(mt_inner bs false false (List.range bs)
              (⟨buf, v, s⟩ : TestState)).1.buffer,
            (mt_inner bs false false (List.range bs)
              (⟨buf, v, s⟩ : TestState)).1.value,
            (mt_inner bs false false (List.range bs)
              (⟨buf, v, s⟩ : TestState)).1.seed⟩ : TestState) := rfl
    obtain ⟨hL, hV, hG⟩ := ih
      (mt_inner bs false false (List.range bs) (⟨buf, v, s⟩ : TestState)).1.buffer
      (mt_inner bs false false (List.range bs) (⟨buf, v, s⟩ : TestState)).1.value
      (mt_inner bs false false (List.range bs) (⟨buf, v, s⟩ : TestState)).1.seed
      (by rw [hl1, hlen]) (by rw [hv1]; exact Nat.mod_lt _ (by decide))
    rw [← heta] at hL hV hG
    have hunf2 : (mt_outer bs false false (n + 1) (⟨buf, v, s⟩ : TestState)).1
        = (mt_outer bs false false n
            (mt_inner bs false false (List.range bs)
              (⟨buf, v, s⟩ : TestState)).1).1 := rfl
    refine ⟨?_, ?_, ?_⟩
    · rw [hunf2]
      exact hL
    · rw [hunf2, hV, hv1, Nat.mod_add_mod]
      congr 1
      have hm : (n + 1) * bs = bs + n * bs := by ring
      rw [hm]
      omega
    · intro j hj
      rw [hunf2, hG j hj]
      by_cases hn : n = 0
      · subst hn
        rw [if_pos rfl, if_neg (by omega), hg1 j, if_pos (by omega)]
        congr 1
        omega
      · rw [if_neg hn, if_neg (by omega), hv1]
        obtain ⟨p, rfl⟩ : ∃ p, n = p + 1 := ⟨n - 1, by omega⟩
        have harith : v + (p + 1 + 1 - 1) * bs + j
            = v + bs + ((p + 1 - 1) * bs + j) := by
          have e1 : p + 1 + 1 - 1 = p + 1 := by omega
          have e2 : p + 1 - 1 = p := by omega
          rw [e1, e2]
          ring
        rw [harith]
        conv_lhs => rw [Nat.add_assoc]
        rw [Nat.mod_add_mod]

/-- Claim C10: a sequential-write run (read = false, rnd = false) over a
    buffer of size n ≥ 1 with loop_count = 100 * loop_scale ≥ 1 leaves
    word i equal to ((loop_count - 1) * n + i) mod 2^32: the final pass
    leaves consecutive 32-bit counter values starting at
    (loop_count - 1) * n. -/
theorem memory_test_seq_write (buf : List Nat) (n ls : Nat)
    (hlen : buf.length = n) (hn : 1 ≤ n) (hls : 1 ≤ ls) :
    ∀ j < n, ((memory_test buf n ls false false).1.buffer).getD j 0
      = ((100 * ls - 1) * n + j) % 2 ^ 32 := by
  intro j hj
  have h := (seq_write_outer n (100 * ls) buf 0 0xDEADBEEF hlen
    (by decide)).2.2 j hj
  show (mt_outer n false false (100 * ls)
    (⟨buf, 0, 0xDEADBEEF⟩ : TestState)).1.buffer.getD j 0 = _
  rw [h, if_neg (by omega), Nat.zero_add]
  rfl

/-- Witness for C10: a 2-word buffer with loop_scale 1 (loop_count 100)
    finishes with word 1 holding (99 * 2 + 1) mod 2^32. -/
theorem memory_test_seq_write_witness :
    ((memory_test [7, 7] 2 1 false false).1.buffer).getD 1 0
      = ((100 * 1 - 1) * 2 + 1) % 2 ^ 32 :=
  memory_test_seq_write [7, 7] 2 1 rfl (by decide) (by decide) 1 (by decide)

end PicoMemPerf
